import Mathlib

/-!
Verification of the camera macro engine (`macro_engine/` package).

The Python sources are shallowly embedded over `ℚ`: Python `float`
arithmetic is idealised as exact rational arithmetic, so the spec's
"to within floating epsilon" statements become exact equalities here.
Comparisons written in the source through `math.hypot` are embedded by
the equivalent squared-magnitude comparisons (for `u, v ≥ 0`,
`u < v ↔ u² < v²`), which is exact over the reals.
-/

namespace MacroEngine

/-- `_clamp(value, minimum, maximum)` from `camera.py` / `config.py`:
`max(minimum, min(maximum, value))`. -/
def clampQ (value minimum maximum : ℚ) : ℚ :=
  max minimum (min maximum value)

/-- `CameraSample` from `events.py`. -/
structure CameraSample where
  timestamp : ℚ
  angle_dx : ℚ
  angle_dy : ℚ
  raw_dx : ℚ
  raw_dy : ℚ
deriving DecidableEq, Repr

/-- `CameraSegment` from `events.py` (the `metadata` dict is dropped:
no embedded code reads it). -/
structure CameraSegment where
  press_event_index : ℤ
  release_event_index : ℤ
  press_timestamp : ℚ
  release_timestamp : ℚ
  samples : List CameraSample
deriving DecidableEq, Repr

/-- `CameraSegment.sum_angles` from `events.py`. -/
def CameraSegment.sum_angles (seg : CameraSegment) : ℚ × ℚ :=
  ((seg.samples.map (fun s => s.angle_dx)).sum,
   (seg.samples.map (fun s => s.angle_dy)).sum)

/-- The fields of `CameraCalibrationProfile` (`config.py`) read by the
camera pipeline. -/
structure CameraCalibrationProfile where
  counts_per_degree_x : ℚ
  counts_per_degree_y : ℚ
deriving DecidableEq, Repr

/-- The fields of `MacroSettings` (`config.py`) read by the camera
pipeline. -/
structure MacroSettings where
  camera_gain : ℚ
  gain_x : ℚ
  gain_y : ℚ
  invert_x : Bool
  invert_y : Bool
  target_rate_hz : ℚ
  sender_max_step : ℤ
  deadzone_threshold : ℚ
  reverse_window_ms : ℚ
  reverse_tiny_ratio : ℚ
  strict_mode : Bool
deriving DecidableEq, Repr

/-- The `MacroSettings` dataclass defaults from `config.py`. -/
def defaultSettings : MacroSettings where
  camera_gain := 1
  gain_x := 1
  gain_y := 1
  invert_x := false
  invert_y := false
  target_rate_hz := 480
  sender_max_step := 1
  deadzone_threshold := 35/100
  reverse_window_ms := 30
  reverse_tiny_ratio := 8/100
  strict_mode := false

/-- The `CameraCalibrationProfile` dataclass defaults from `config.py`
(`counts_per_degree_x = counts_per_degree_y = 12.5`). -/
def defaultCalibration : CameraCalibrationProfile where
  counts_per_degree_x := 25/2
  counts_per_degree_y := 25/2

/-- `CameraModel.gain_x` from `camera.py`. -/
def CameraModel.gainX (settings : MacroSettings) : ℚ :=
  settings.camera_gain * settings.gain_x

/-- `CameraModel.gain_y` from `camera.py`. -/
def CameraModel.gainY (settings : MacroSettings) : ℚ :=
  settings.camera_gain * settings.gain_y

/-- `CameraModel.counts_to_angles` from `camera.py`. -/
def CameraModel.counts_to_angles (calibration : CameraCalibrationProfile)
    (settings : MacroSettings) (dx dy : ℚ) (apply_gain : Bool) : ℚ × ℚ :=
  let angle_x := dx / calibration.counts_per_degree_x
  let angle_y := dy / calibration.counts_per_degree_y
  let angle_x := if apply_gain then angle_x * CameraModel.gainX settings else angle_x
  let angle_y := if apply_gain then angle_y * CameraModel.gainY settings else angle_y
  let angle_x := if settings.invert_x then angle_x * (-1) else angle_x
  let angle_y := if settings.invert_y then angle_y * (-1) else angle_y
  (angle_x, angle_y)

/-- `CameraModel.angles_to_counts` from `camera.py`. -/
def CameraModel.angles_to_counts (calibration : CameraCalibrationProfile)
    (settings : MacroSettings) (angle_dx angle_dy : ℚ) (include_gain : Bool) : ℚ × ℚ :=
  let dx := angle_dx
  let dy := angle_dy
  let dx := if include_gain then dx * CameraModel.gainX settings else dx
  let dy := if include_gain then dy * CameraModel.gainY settings else dy
  let dx := if settings.invert_x then dx * (-1) else dx
  let dy := if settings.invert_y then dy * (-1) else dy
  (dx * calibration.counts_per_degree_x, dy * calibration.counts_per_degree_y)

/-- Models `math.hypot(dx, dy) < d` exactly: a nonnegative magnitude is
below `d` iff `d` is positive and the squared magnitude is below `d²`. -/
def hypotLt (dx dy d : ℚ) : Prop :=
  0 < d ∧ dx ^ 2 + dy ^ 2 < d ^ 2

instance (dx dy d : ℚ) : Decidable (hypotLt dx dy d) := by
  unfold hypotLt
  infer_instance

/-- `math.copysign(1.0, v)` for a rational (no negative zero). -/
def copysignOne (v : ℚ) : ℚ :=
  if v < 0 then -1 else 1

/-- `dx != 0.0 and math.copysign(1.0, dx) != math.copysign(1.0, last_dx)`
from `MotionFilter.apply`. -/
def reversedSign (v last : ℚ) : Prop :=
  v ≠ 0 ∧ copysignOne v ≠ copysignOne last

instance (v last : ℚ) : Decidable (reversedSign v last) := by
  unfold reversedSign
  infer_instance

/-- `MotionFilter` from `camera.py`: the derived thresholds plus the
history deque (front = oldest). -/
structure MotionFilter where
  deadzone_deg : ℚ
  reverse_window : ℚ
  reverse_tiny_ratio : ℚ
  history : List (ℚ × ℚ × ℚ)
deriving DecidableEq, Repr

/-- `MotionFilter.__init__`: Python's
`settings.deadzone_threshold / calibration.counts_per_degree_x if settings.deadzone_threshold else 0.0`
(the guard is float truthiness, i.e. a zero threshold yields `0.0`);
`reverse_window = reverse_window_ms / 1000`; `reverse_tiny_ratio` copied;
empty history. -/
def MotionFilter.init (settings : MacroSettings)
    (calibration : CameraCalibrationProfile) : MotionFilter where
  deadzone_deg :=
    if settings.deadzone_threshold = 0 then 0
    else settings.deadzone_threshold / calibration.counts_per_degree_x
  reverse_window := settings.reverse_window_ms / 1000
  reverse_tiny_ratio := settings.reverse_tiny_ratio
  history := []

/-- The `self._history.append(...)` plus trailing eviction `while` loop of
`MotionFilter.apply` (pop from the front while the oldest entry is older
than the window). -/
def MotionFilter.push (f : MotionFilter) (dx dy timestamp : ℚ) : MotionFilter :=
  let h := f.history ++ [(timestamp, dx, dy)]
  { f with history := h.dropWhile (fun e => decide (f.reverse_window < timestamp - e.1)) }

/-- `MotionFilter.apply` from `camera.py`. The source's nested
`if timestamp - last_ts <= window: if last_mag > 0 and magnitude < last_mag * max(0, ratio): if reversed_x or reversed_y: return 0,0`
is flattened into one conjunction (any failing test falls through to the
accept path). Magnitude comparisons are the exact squared forms of the
source's `math.hypot` comparisons: `last_mag > 0` becomes
`0 < ldx² + ldy²`, and `magnitude < last_mag * max(0, ratio)` (both sides
nonnegative) becomes `dx² + dy² < (ldx² + ldy²) * (max 0 ratio)²`. -/
def MotionFilter.apply (f : MotionFilter) (dx dy timestamp : ℚ) :
    MotionFilter × (ℚ × ℚ) :=
  if hypotLt dx dy f.deadzone_deg then (f, (0, 0))
  else
    match f.history.getLast? with
    | none => (f.push dx dy timestamp, (dx, dy))
    | some (last_ts, last_dx, last_dy) =>
      if timestamp - last_ts ≤ f.reverse_window ∧
          0 < last_dx ^ 2 + last_dy ^ 2 ∧
          dx ^ 2 + dy ^ 2 <
            (last_dx ^ 2 + last_dy ^ 2) * (max 0 f.reverse_tiny_ratio) ^ 2 ∧
          (reversedSign dx last_dx ∨ reversedSign dy last_dy) then
        (f, (0, 0))
      else (f.push dx dy timestamp, (dx, dy))

/-- `CumulativeSeries` from `camera.py`: three parallel lists. -/
structure CumulativeSeries where
  times : List ℚ
  cum_x : List ℚ
  cum_y : List ℚ
deriving DecidableEq, Repr

/-- The `for sample in ordered:` loop of `CumulativeSeries.__init__`,
threading `(times, cum_x, cum_y, total_x, total_y)`. -/
def buildLoop (start endT : ℚ) :
    List CameraSample → List ℚ × List ℚ × List ℚ × ℚ × ℚ →
      List ℚ × List ℚ × List ℚ × ℚ × ℚ
  | [], acc => acc
  | sample :: rest, (times, cx, cy, total_x, total_y) =>
    let timestamp := clampQ sample.timestamp start endT
    let total_x := total_x + sample.angle_dx
    let total_y := total_y + sample.angle_dy
    buildLoop start endT rest
      (times ++ [timestamp], cx ++ [total_x], cy ++ [total_y], total_x, total_y)

/-- `CumulativeSeries.__init__` from `camera.py`: sort the samples by
timestamp (`sorted` is modelled by `mergeSort`, also stable), run the
accumulation loop from `([start], [0], [0], 0, 0)`, then extend to `end`
if the last recorded time falls short of it. -/
def CumulativeSeries.build (start endT : ℚ) (samples : List CameraSample) :
    CumulativeSeries :=
  let ordered := samples.mergeSort (fun a b => decide (a.timestamp ≤ b.timestamp))
  let r := buildLoop start endT ordered ([start], [0], [0], 0, 0)
  let times := r.1
  let cx := r.2.1
  let cy := r.2.2.1
  let total_x := r.2.2.2.1
  let total_y := r.2.2.2.2
  if times.getLastD 0 < endT then
    ⟨times ++ [endT], cx ++ [total_x], cy ++ [total_y]⟩
  else
    ⟨times, cx, cy⟩

/-- `bisect.bisect_right(l, x)` on a sorted list: the number of elements
`≤ x`. -/
def bisectRight (l : List ℚ) (x : ℚ) : ℕ :=
  l.countP (fun t => decide (t ≤ x))

/-- `CumulativeSeries.value_at` from `camera.py`. The index clamp
`max(0, min(idx, len - 2))` is expressed over `ℕ` (where both
subtractions already truncate at `0`, matching the Python result). -/
def CumulativeSeries.value_at (c : CumulativeSeries) (timestamp : ℚ) : ℚ × ℚ :=
  if timestamp ≤ c.times.headD 0 then (0, 0)
  else if c.times.getLastD 0 ≤ timestamp then (c.cum_x.getLastD 0, c.cum_y.getLastD 0)
  else
    let idx := min (bisectRight c.times timestamp - 1) (c.times.length - 2)
    let left_time := c.times.getD idx 0
    let right_time := c.times.getD (idx + 1) 0
    if right_time ≤ left_time then (c.cum_x.getD idx 0, c.cum_y.getD idx 0)
    else
      let ratio := (timestamp - left_time) / (right_time - left_time)
      (c.cum_x.getD idx 0 + (c.cum_x.getD (idx + 1) 0 - c.cum_x.getD idx 0) * ratio,
       c.cum_y.getD idx 0 + (c.cum_y.getD (idx + 1) 0 - c.cum_y.getD idx 0) * ratio)

/-- `CumulativeSeries.total_vector` from `camera.py`. -/
def CumulativeSeries.total_vector (c : CumulativeSeries) : ℚ × ℚ :=
  (c.cum_x.getLastD 0, c.cum_y.getLastD 0)

/-- The `1e-6` slack of `CameraTrajectory.resample`. -/
def resampleEps : ℚ := 1 / 1000000

/-- The `while t < release_timestamp - 1e-6: timestamps.append(t); t += step`
loop of `CameraTrajectory.resample` (the `0 < step` guard is part of the
dite so the recursion is well founded; `resample` always calls it with
`step = 1 / max(1, rate) > 0`). -/
def tickLoop (releaseT step t : ℚ) : List ℚ :=
  if h : 0 < step ∧ t < releaseT - resampleEps then
    t :: tickLoop releaseT step (t + step)
  else []
termination_by (⌈(releaseT - resampleEps - t) / step⌉).toNat
decreasing_by
  have hstep := h.1
  have hpos : 0 < (releaseT - resampleEps - t) / step := by
    apply div_pos _ hstep
    linarith [h.2]
  have hone : (1 : ℤ) ≤ ⌈(releaseT - resampleEps - t) / step⌉ := Int.ceil_pos.mpr hpos
  have hrw : (releaseT - resampleEps - (t + step)) / step
      = (releaseT - resampleEps - t) / step - 1 := by
    have h1 : releaseT - resampleEps - (t + step)
        = (releaseT - resampleEps - t) - step := by ring
    rw [h1, sub_div, div_self (ne_of_gt hstep)]
  rw [hrw, Int.ceil_sub_one]
  omega

/-- The `for timestamp in timestamps:` loop of `CameraTrajectory.resample`:
per tick, read the interpolated cumulative value, emit the delta from the
previous cumulative value, and also record the delta re-scaled to raw
counts. -/
def resampleLoop (series : CumulativeSeries)
    (calibration : CameraCalibrationProfile) (prev_x prev_y : ℚ) :
    List ℚ → List CameraSample
  | [] => []
  | timestamp :: rest =>
    let v := series.value_at timestamp
    let delta_x := v.1 - prev_x
    let delta_y := v.2 - prev_y
    { timestamp := timestamp
      angle_dx := delta_x
      angle_dy := delta_y
      raw_dx := delta_x * calibration.counts_per_degree_x
      raw_dy := delta_y * calibration.counts_per_degree_y } ::
      resampleLoop series calibration v.1 v.2 rest

/-- `CameraTrajectory.duration` from `camera.py`
(`max(0.0, release - press)`). -/
def CameraTrajectory.duration (segment : CameraSegment) : ℚ :=
  max 0 (segment.release_timestamp - segment.press_timestamp)

/-- `CameraTrajectory.resample` from `camera.py`. The trajectory's series
is the one built in `CameraTrajectory.__init__`; the tick list is the
`while` loop's output followed by the unconditional
`timestamps.append(release_timestamp)`. -/
def CameraTrajectory.resample (segment : CameraSegment)
    (calibration : CameraCalibrationProfile) (target_rate_hz : ℚ) :
    List CameraSample :=
  let rate := max 1 target_rate_hz
  let series := CumulativeSeries.build segment.press_timestamp
    segment.release_timestamp segment.samples
  if segment.samples = [] ∨ CameraTrajectory.duration segment ≤ 0 then []
  else
    let step := 1 / rate
    let timestamps :=
      tickLoop segment.release_timestamp step (segment.press_timestamp + step) ++
        [segment.release_timestamp]
    resampleLoop series calibration 0 0 timestamps

/-- `SubPixelAccumulator` from `camera.py`. `hmax` records the
`max(1, int(max_step))` clamp performed by `__init__`; every constructed
accumulator satisfies it, and `feed`'s loop only terminates under it. -/
structure SubPixelAccumulator where
  max_step : ℤ
  hmax : 1 ≤ max_step
  buffer_x : ℚ
  buffer_y : ℚ

/-- `SubPixelAccumulator.__init__`. -/
def SubPixelAccumulator.init (max_step : ℤ) : SubPixelAccumulator where
  max_step := max 1 max_step
  hmax := le_max_left 1 max_step
  buffer_x := 0
  buffer_y := 0

/-- One axis of the body of `feed`'s `while` loop: the step sent for a
buffer value (`0` when `abs(buffer) < 1`). Python's `int(abs(b))`
truncates a nonnegative float, i.e. `⌊|b|⌋`. -/
def sendFor (max_step : ℤ) (b : ℚ) : ℤ :=
  if 1 ≤ |b| then
    let magnitude := min max_step ⌊|b|⌋
    let magnitude := if magnitude = 0 then 1 else magnitude
    if 0 < b then magnitude else -magnitude
  else 0

/-- Exact behaviour of one axis of `feed`'s loop body (for a clamped
`max_step ≥ 1`, as `__init__` guarantees): the send is zero exactly when
the buffer is sub-unit, it is bounded by `max_step`, and subtracting it
removes exactly `|send|` whole units from the buffer's integer part.
This is both the loop's termination measure and the step-bound used by
the accumulator theorems. -/
theorem sendFor_spec (max_step : ℤ) (hm : 1 ≤ max_step) (b : ℚ) :
    (sendFor max_step b = 0 ↔ |b| < 1) ∧
    |sendFor max_step b| ≤ max_step ∧
    ⌊|b - sendFor max_step b|⌋ = ⌊|b|⌋ - |sendFor max_step b| ∧
    (sendFor max_step b ≠ 0 → 1 ≤ |sendFor max_step b|) := by
  by_cases h1 : 1 ≤ |b|
  · have hfl : (1 : ℤ) ≤ ⌊|b|⌋ := by
      rw [Int.le_floor]
      exact_mod_cast h1
    have hM1 : 1 ≤ min max_step ⌊|b|⌋ := le_min hm hfl
    have hMle : min max_step ⌊|b|⌋ ≤ ⌊|b|⌋ := min_le_right _ _
    have hMm : min max_step ⌊|b|⌋ ≤ max_step := min_le_left _ _
    have hMQ : ((min max_step ⌊|b|⌋ : ℤ) : ℚ) ≤ |b| :=
      le_trans (by exact_mod_cast hMle) (Int.floor_le _)
    have hs : sendFor max_step b
        = if 0 < b then min max_step ⌊|b|⌋ else -(min max_step ⌊|b|⌋) := by
      have hne : ¬ (min max_step ⌊|b|⌋ = 0) := by omega
      simp only [sendFor, if_pos h1, if_neg hne]
    rw [hs]
    generalize hMdef : min max_step ⌊|b|⌋ = M at hM1 hMle hMm hMQ ⊢
    have hMpos : (0 : ℤ) < M := by omega
    rcases lt_trichotomy b 0 with hb | hb | hb
    · have habs : |b| = -b := abs_of_neg hb
      have hnpos : ¬ (0 < b) := by linarith
      rw [if_neg hnpos]
      have hcast : ((-M : ℤ) : ℚ) = -(M : ℚ) := by push_cast; ring
      refine ⟨⟨fun hz => by omega, fun hlt => absurd hlt (by linarith)⟩, ?_, ?_, ?_⟩
      · rw [abs_neg, abs_of_pos hMpos]
        exact hMm
      · rw [hcast]
        have hble : b - -(M : ℚ) ≤ 0 := by
          rw [habs] at hMQ
          linarith
        rw [abs_of_nonpos hble]
        have hr : -(b - -(M : ℚ)) = -b - ((M : ℤ) : ℚ) := by ring
        rw [hr, Int.floor_sub_int, abs_neg, abs_of_pos hMpos, habs]
      · intro _
        rw [abs_neg, abs_of_pos hMpos]
        omega
    · exfalso
      rw [hb] at h1
      simp at h1
      linarith
    · have habs : |b| = b := abs_of_pos hb
      rw [if_pos hb]
      refine ⟨⟨fun hz => by omega, fun hlt => absurd hlt (by linarith)⟩, ?_, ?_, ?_⟩
      · rw [abs_of_pos hMpos]
        exact hMm
      · have hble : 0 ≤ b - (M : ℚ) := by
          rw [habs] at hMQ
          linarith
        rw [abs_of_nonneg hble, Int.floor_sub_int, abs_of_pos hMpos, habs]
      · intro _
        rw [abs_of_pos hMpos]
        omega
  · have hz : sendFor max_step b = 0 := by
      simp only [sendFor, if_neg h1]
    rw [hz]
    push_neg at h1
    refine ⟨⟨fun _ => h1, fun _ => rfl⟩, by simpa using le_trans zero_le_one hm, ?_, ?_⟩
    · simp
    · intro hc
      exact absurd rfl hc

/-- The `while True:` loop of `SubPixelAccumulator.feed`: compute both
axes' sends, stop when both are zero, otherwise emit the pair, subtract
it from the buffers and continue. Returns the emitted pairs and the
final buffers. -/
def feedLoop (max_step : ℤ) (hmax : 1 ≤ max_step) (bx bY : ℚ) :
    List (ℤ × ℤ) × ℚ × ℚ :=
  let send_x := sendFor max_step bx
  let send_y := sendFor max_step bY
  if h : send_x = 0 ∧ send_y = 0 then ([], bx, bY)
  else
    let r := feedLoop max_step hmax (bx - send_x) (bY - send_y)
    ((send_x, send_y) :: r.1, r.2)
termination_by (⌊|bx|⌋ + ⌊|bY|⌋).toNat
decreasing_by
  obtain ⟨hx0, _, hxf, hx1⟩ := sendFor_spec max_step hmax bx
  obtain ⟨hy0, _, hyf, hy1⟩ := sendFor_spec max_step hmax bY
  have hxn : (0 : ℤ) ≤ ⌊|bx - sendFor max_step bx|⌋ :=
    Int.floor_nonneg.mpr (abs_nonneg _)
  have hyn : (0 : ℤ) ≤ ⌊|bY - sendFor max_step bY|⌋ :=
    Int.floor_nonneg.mpr (abs_nonneg _)
  have habs_x : (0 : ℤ) ≤ |sendFor max_step bx| := abs_nonneg _
  have habs_y : (0 : ℤ) ≤ |sendFor max_step bY| := abs_nonneg _
  rcases not_and_or.mp h with hx | hy
  · have := hx1 hx
    omega
  · have := hy1 hy
    omega

/-- `SubPixelAccumulator.feed` from `camera.py`. -/
def SubPixelAccumulator.feed (a : SubPixelAccumulator) (counts_x counts_y : ℚ) :
    List (ℤ × ℤ) × SubPixelAccumulator :=
  let r := feedLoop a.max_step a.hmax (a.buffer_x + counts_x) (a.buffer_y + counts_y)
  (r.1, { a with buffer_x := r.2.1, buffer_y := r.2.2 })

/-- Python 3 `round` to an integer: round half to even. -/
def pyRound (q : ℚ) : ℤ :=
  if 1/2 < q - ⌊q⌋ then ⌊q⌋ + 1
  else if q - ⌊q⌋ < 1/2 then ⌊q⌋
  else if 2 ∣ ⌊q⌋ then ⌊q⌋ else ⌊q⌋ + 1

/-- `SubPixelAccumulator.flush` from `camera.py`. The two `if`s are
Python float/int truthiness tests (nonzero). -/
def SubPixelAccumulator.flush (a : SubPixelAccumulator) :
    List (ℤ × ℤ) × SubPixelAccumulator :=
  if a.buffer_x ≠ 0 ∨ a.buffer_y ≠ 0 then
    let remainder_x := pyRound a.buffer_x
    let remainder_y := pyRound a.buffer_y
    if remainder_x ≠ 0 ∨ remainder_y ≠ 0 then
      ([(remainder_x, remainder_y)],
       { a with buffer_x := a.buffer_x - remainder_x, buffer_y := a.buffer_y - remainder_y })
    else ([], a)
  else ([], a)

/-- `_SampleAction` from `playback.py`. -/
structure SampleAction where
  timestamp : ℚ
  steps : List (ℤ × ℤ)
  diagnostic_sample : CameraSample
deriving DecidableEq, Repr

/-- The loop body of `CameraPlaybackRunner._prepare_actions`
(`playback.py`): filter the resampled sample, skip if fully suppressed,
re-quantize through the accumulator, skip if nothing was emitted,
otherwise record the action with its diagnostic sample. Threads
`(actions, filter, accumulator)` exactly as the Python instance state
does. -/
def prepareStep (calibration : CameraCalibrationProfile) (settings : MacroSettings)
    (state : List SampleAction × MotionFilter × SubPixelAccumulator)
    (sample : CameraSample) :
    List SampleAction × MotionFilter × SubPixelAccumulator :=
  let actions := state.1
  let f := state.2.1
  let a := state.2.2
  let fr := f.apply sample.angle_dx sample.angle_dy sample.timestamp
  let filtered_dx := fr.2.1
  let filtered_dy := fr.2.2
  if filtered_dx = 0 ∧ filtered_dy = 0 then (actions, fr.1, a)
  else
    let counts := CameraModel.angles_to_counts calibration settings filtered_dx filtered_dy true
    let er := a.feed counts.1 counts.2
    let emitted := er.1
    if emitted = [] then (actions, fr.1, er.2)
    else
      let sum_x := (emitted.map Prod.fst).sum
      let sum_y := (emitted.map Prod.snd).sum
      let angles := CameraModel.counts_to_angles calibration settings sum_x sum_y false
      let diag : CameraSample :=
        { timestamp := sample.timestamp
          angle_dx := angles.1
          angle_dy := angles.2
          raw_dx := sum_x
          raw_dy := sum_y }
      (actions ++ [⟨sample.timestamp, emitted, diag⟩], fr.1, er.2)

/-- `CameraPlaybackRunner._prepare_actions` from `playback.py`:
resample the trajectory at the target rate, run every resampled sample
through the filter/quantizer loop, then flush the accumulator into a
final action at the segment's release timestamp. -/
def prepareActions (segment : CameraSegment) (settings : MacroSettings)
    (calibration : CameraCalibrationProfile) : List SampleAction :=
  let resampled := CameraTrajectory.resample segment calibration settings.target_rate_hz
  let init : List SampleAction × MotionFilter × SubPixelAccumulator :=
    ([], MotionFilter.init settings calibration,
     SubPixelAccumulator.init settings.sender_max_step)
  let r := resampled.foldl (prepareStep calibration settings) init
  let fr := r.2.2.flush
  let flush_steps := fr.1
  if flush_steps = [] then r.1
  else
    let sum_x := ((flush_steps.map Prod.fst).sum : ℤ)
    let sum_y := ((flush_steps.map Prod.snd).sum : ℤ)
    let angles := CameraModel.counts_to_angles calibration settings sum_x sum_y false
    let diag : CameraSample :=
      { timestamp := segment.release_timestamp
        angle_dx := angles.1
        angle_dy := angles.2
        raw_dx := sum_x
        raw_dy := sum_y }
    r.1 ++ [⟨segment.release_timestamp, flush_steps, diag⟩]

/-- The `while True:` loop of `TimelineController.sleep_until`
(`playback.py`), abstracted over a clock trace: each list element is the
value `time.perf_counter()` returns at one loop iteration (the coarse
and fine `time.sleep` calls only decide which instants are observed, not
the exit test). The loop exits, returning the observed instant, exactly
when `remaining = target - now ≤ 0`. `none` models a trace that ends
before the deadline is reached (the real loop would keep waiting). -/
def sleepUntilGo (target : ℚ) : List ℚ → Option ℚ
  | [] => none
  | now :: rest => if target - now ≤ 0 then some now else sleepUntilGo target rest

/-- `TimelineController.sleep_until(timestamp)` after `reset()` captured
`base`: the target instant is `base + max(0, timestamp)`. -/
def sleepUntil (base timestamp : ℚ) (clock : List ℚ) : Option ℚ :=
  sleepUntilGo (base + max 0 timestamp) clock

/-- `MacroEvent` from `events.py`. The `data` dict is modelled by the one
key the embedded playback logic reads, `data.get("button")`. -/
structure MacroEvent where
  type : String
  timestamp : ℚ
  button : Option String
deriving DecidableEq, Repr

/-- `MacroRecording` from `events.py` (fields the embedded logic reads). -/
structure MacroRecording where
  name : String
  created_at : ℚ
  events : List MacroEvent
  camera_segments : List CameraSegment
deriving DecidableEq, Repr

/-- A parsed JSON event object: each key the code reads through
`payload.get(key, default)`, `none` when the key is absent. -/
structure EventPayload where
  type : Option String
  timestamp : Option ℚ
  button : Option String
deriving DecidableEq, Repr

/-- A parsed JSON camera-segment object, keys as `CameraSegment.from_dict`
reads them. -/
structure SegmentPayload where
  press_event_index : Option ℤ
  release_event_index : Option ℤ
  press_timestamp : Option ℚ
  release_timestamp : Option ℚ
  samples : List CameraSample
deriving DecidableEq, Repr

/-- A parsed JSON recording object, keys as `MacroRecording.from_dict`
reads them. -/
structure RecordingPayload where
  name : Option String
  created_at : Option ℚ
  events : List EventPayload
  camera_segments : List SegmentPayload
deriving DecidableEq, Repr

/-- `MacroEvent.from_dict` from `events.py`: every missing key is
defaulted, nothing is validated. -/
def MacroEvent.fromDict (p : EventPayload) : MacroEvent where
  type := p.type.getD ""
  timestamp := p.timestamp.getD 0
  button := p.button

/-- `CameraSegment.from_dict` from `events.py`: missing indices default
to `-1`, missing timestamps to `0.0`; nothing is validated. -/
def CameraSegment.fromDict (p : SegmentPayload) : CameraSegment where
  press_event_index := p.press_event_index.getD (-1)
  release_event_index := p.release_event_index.getD (-1)
  press_timestamp := p.press_timestamp.getD 0
  release_timestamp := p.release_timestamp.getD 0
  samples := p.samples

/-- `MacroRecording.from_dict` from `events.py`, which is all the parsing
`MacroStorage.load` performs after `json.load`: it is total — no field of
the payload is checked against any other, and in particular segment
event indices are taken as-is. -/
def MacroRecording.fromDict (p : RecordingPayload) : MacroRecording where
  name := p.name.getD "macro"
  created_at := p.created_at.getD 0
  events := p.events.map MacroEvent.fromDict
  camera_segments := p.camera_segments.map CameraSegment.fromDict

/-- `PlaybackSession._resolve_mouse_button` from `playback.py`:
strip `"Button."`, lowercase, then look the result up among
left/right/middle. -/
def resolveMouseButton : Option String → Option String
  | none => none
  | some v =>
    let v := (v.replace "Button." "").toLower
    if v = "left" ∨ v = "right" ∨ v = "middle" then some v else none

/-- The dict comprehension
`{segment.press_event_index: segment for segment in recording.camera_segments}`
of `PlaybackSession.play`, looked up at one key: a later segment with the
same press index overwrites an earlier one. -/
def segmentsByPress (segments : List CameraSegment) (idx : ℤ) :
    Option CameraSegment :=
  segments.foldl
    (fun acc seg => if seg.press_event_index = idx then some seg else acc) none

/-- The runner-creation test of `PlaybackSession._dispatch_event`: at
event position `idx`, a `CameraPlaybackRunner` is constructed iff the
event is a `mouse_press` whose button resolves to `right` and some
segment's `press_event_index` equals `idx`; the runner then plays that
segment. -/
def runnerSegmentAt (rec : MacroRecording) (idx : ℕ) : Option CameraSegment :=
  match rec.events.get? idx with
  | none => none
  | some ev =>
    if ev.type = "mouse_press" ∧ resolveMouseButton ev.button = some "right" then
      segmentsByPress rec.camera_segments idx
    else none

/-- The spec's load-time resolution requirement on the press side: the
segment's `press_event_index` designates an existing event that is a
right-button `mouse_press`. (Written from the spec's words — the source
has no such check.) -/
def pressResolves (events : List MacroEvent) (seg : CameraSegment) : Bool :=
  0 ≤ seg.press_event_index &&
    match events.get? seg.press_event_index.toNat with
    | none => false
    | some ev =>
      decide (ev.type = "mouse_press") &&
        decide (resolveMouseButton ev.button = some "right")

/-- The spec's load-time resolution requirement on the release side,
symmetric to `pressResolves`. (Written from the spec's words — the
source has no such check.) -/
def releaseResolves (events : List MacroEvent) (seg : CameraSegment) : Bool :=
  0 ≤ seg.release_event_index &&
    match events.get? seg.release_event_index.toNat with
    | none => false
    | some ev =>
      decide (ev.type = "mouse_release") &&
        decide (resolveMouseButton ev.button = some "right")

/-- The spec's "segment press/release indices resolve to matching
discrete events", for one segment. -/
def segmentResolves (events : List MacroEvent) (seg : CameraSegment) : Bool :=
  pressResolves events seg && releaseResolves events seg

/-- `_CameraSegmentState` from `recording.py`. -/
structure CameraSegmentState where
  press_event_index : ℕ
  press_timestamp : ℚ
  samples : List CameraSample
deriving DecidableEq, Repr

/-- The `RecordingSession` capture state mutated by the listener
callbacks in `recording.py`. -/
structure RecordingSessionState where
  events : List MacroEvent
  segments : List CameraSegment
  segment_state : Option CameraSegmentState
  rmb_pressed : Bool
deriving DecidableEq, Repr

/-- A fresh `RecordingSession` (after `start()`). -/
def RecordingSessionState.init : RecordingSessionState where
  events := []
  segments := []
  segment_state := none
  rmb_pressed := false

/-- `RecordingSession._append_event`: append and return the new index. -/
def RecordingSessionState.appendEvent (st : RecordingSessionState)
    (etype : String) (button : Option String) (timestamp : ℚ) :
    RecordingSessionState × ℕ :=
  ({ st with events := st.events ++ [⟨etype, timestamp, button⟩] }, st.events.length)

/-- `RecordingSession._start_camera_segment`: unconditionally replace
`_segment_state` with a fresh state anchored at the press event. -/
def RecordingSessionState.startCameraSegment (st : RecordingSessionState)
    (event_index : ℕ) : RecordingSessionState :=
  let timestamp := ((st.events.get? event_index).map (fun e => e.timestamp)).getD 0
  { st with segment_state := some ⟨event_index, timestamp, []⟩ }

/-- `RecordingSession._finalize_camera_segment`: close the open segment
(if any), dropping zero-motion samples. -/
def RecordingSessionState.finalizeCameraSegment (st : RecordingSessionState)
    (release_timestamp : ℚ) (release_event_index : ℤ) : RecordingSessionState :=
  match st.segment_state with
  | none => st
  | some seg_state =>
    let samples := seg_state.samples.filter
      (fun s => !(decide (s.angle_dx = 0)) || !(decide (s.angle_dy = 0)))
    let segment : CameraSegment :=
      { press_event_index := seg_state.press_event_index
        release_event_index := release_event_index
        press_timestamp := seg_state.press_timestamp
        release_timestamp := release_timestamp
        samples := samples }
    { st with segments := st.segments ++ [segment], segment_state := none }

/-- `RecordingSession._append_camera_delta` (with
`counts_to_angles(dx, dy, apply_gain=False)` already applied): append a
sample to the open segment, if any. -/
def RecordingSessionState.appendCameraDelta (st : RecordingSessionState)
    (calibration : CameraCalibrationProfile) (settings : MacroSettings)
    (dx dy timestamp : ℚ) : RecordingSessionState :=
  match st.segment_state with
  | none => st
  | some seg_state =>
    let angles := CameraModel.counts_to_angles calibration settings dx dy false
    let sample : CameraSample :=
      { timestamp := timestamp
        angle_dx := angles.1
        angle_dy := angles.2
        raw_dx := dx
        raw_dy := dy }
    { st with segment_state := some { seg_state with samples := seg_state.samples ++ [sample] } }

/-- `RecordingSession._on_mouse_click` from `recording.py`: append the
press/release event; for the right button, update `_rmb_pressed` and
open (unconditionally, via `_start_camera_segment`) or close the camera
segment. -/
def RecordingSessionState.onMouseClick (st : RecordingSessionState)
    (button : String) (pressed : Bool) (timestamp : ℚ) : RecordingSessionState :=
  let r := st.appendEvent (if pressed then "mouse_press" else "mouse_release")
    (some button) timestamp
  let st1 := r.1
  let event_index := r.2
  if button = "right" then
    let st2 := { st1 with rmb_pressed := pressed }
    if pressed then st2.startCameraSegment event_index
    else st2.finalizeCameraSegment timestamp event_index
  else st1

/-- The x-axis total of a list of emitted integer steps. -/
def stepSumX (l : List (ℤ × ℤ)) : ℤ :=
  (l.map Prod.fst).sum

/-- The y-axis total of a list of emitted integer steps. -/
def stepSumY (l : List (ℤ × ℤ)) : ℤ :=
  (l.map Prod.snd).sum

/-- A sequence of `SubPixelAccumulator.feed` calls: the concatenation of
all emitted steps, and the accumulator state after the last call. -/
def runFeeds (a : SubPixelAccumulator) : List (ℚ × ℚ) → List (ℤ × ℤ) × SubPixelAccumulator
  | [] => ([], a)
  | c :: rest =>
    let r := a.feed c.1 c.2
    let rr := runFeeds r.2 rest
    (r.1 ++ rr.1, rr.2)

/-- Default settings with `strict_mode` switched on. -/
def strictSettings : MacroSettings :=
  { defaultSettings with strict_mode := true }

/-- Default settings with an effective camera gain of `2`. -/
def gainSettings : MacroSettings :=
  { defaultSettings with camera_gain := 2 }

/-- A calibration with one count per degree on both axes. -/
def unitCalibration : CameraCalibrationProfile where
  counts_per_degree_x := 1
  counts_per_degree_y := 1

/-- A degenerate camera segment: one sample of one degree, but
`press_timestamp = release_timestamp` (zero duration). -/
def degSeg : CameraSegment where
  press_event_index := 0
  release_event_index := 1
  press_timestamp := 0
  release_timestamp := 0
  samples := [{ timestamp := 0, angle_dx := 1, angle_dy := 2, raw_dx := 25/2, raw_dy := 25 }]

/-- A well-formed one-second camera segment with a single mid-segment
sample. -/
def unitSeg : CameraSegment where
  press_event_index := 0
  release_event_index := 1
  press_timestamp := 0
  release_timestamp := 1
  samples := [{ timestamp := 1/2, angle_dx := 1, angle_dy := 2, raw_dx := 25/2, raw_dy := 25 }]

/-- A recording payload whose only camera segment points at event
indices `5`/`6` while the event list is empty: its indices cannot
resolve to any discrete event. -/
def badPayload : RecordingPayload where
  name := some "m"
  created_at := some 0
  events := []
  camera_segments := [{ press_event_index := some 5, release_event_index := some 6,
                        press_timestamp := some 0, release_timestamp := some 1,
                        samples := [] }]

/-- The recording `MacroRecording.from_dict` produces for `badPayload`. -/
def badRec : MacroRecording where
  name := "m"
  created_at := 0
  events := []
  camera_segments := [{ press_event_index := 5, release_event_index := 6,
                        press_timestamp := 0, release_timestamp := 1,
                        samples := [] }]

/-! ## Theorems -/

/-- Helper: whatever instant `sleepUntilGo` returns is at or after the
target. -/
theorem sleepUntilGo_le (target : ℚ) (clock : List ℚ) (now : ℚ)
    (hr : sleepUntilGo target clock = some now) : target ≤ now := by
  induction clock with
  | nil => simp [sleepUntilGo] at hr
  | cons c rest ih =>
    rw [sleepUntilGo] at hr
    by_cases hc : target - c ≤ 0
    · rw [if_pos hc] at hr
      injection hr with h
      subst h
      linarith
    · rw [if_neg hc] at hr
      exact ih hr

/-- C8: `TimelineController.sleep_until(t)` never returns before the
instant `base + t`: over every clock trace, if the wait loop returns
having observed the instant `now`, then `now` is at least `base + t`
(for a non-negative offset `t`). -/
theorem sleep_until_never_early (base timestamp : ℚ) (clock : List ℚ) (now : ℚ)
    (ht : 0 ≤ timestamp) (hr : sleepUntil base timestamp clock = some now) :
    base + timestamp ≤ now := by
  have h := sleepUntilGo_le (base + max 0 timestamp) clock now hr
  have : timestamp ≤ max 0 timestamp := le_max_right 0 timestamp
  linarith

/-- Witness for C8 at `base = 0`, `t = 1`, a clock trace observing `2`. -/
theorem sleep_until_never_early_witness :
    (0 : ℚ) ≤ 1 ∧ sleepUntil 0 1 [2] = some 2 ∧ (0 : ℚ) + 1 ≤ 2 := by
  have h2 : sleepUntil 0 1 [2] = some 2 := by
    rw [sleepUntil, sleepUntilGo]
    norm_num
  exact ⟨by norm_num, h2, sleep_until_never_early 0 1 [2] 2 (by norm_num) h2⟩

/-- C7: precomputing a segment's action timeline is deterministic —
`CameraPlaybackRunner._prepare_actions` is a pure function of the
segment, settings and calibration, so equal inputs give identical
quantized step sequences. -/
theorem prepare_actions_deterministic (seg1 seg2 : CameraSegment)
    (s1 s2 : MacroSettings) (c1 c2 : CameraCalibrationProfile)
    (hseg : seg1 = seg2) (hs : s1 = s2) (hc : c1 = c2) :
    prepareActions seg1 s1 c1 = prepareActions seg2 s2 c2 := by
  subst hseg
  subst hs
  subst hc
  rfl

/-- Witness for C7 at a concrete segment, settings and calibration. -/
theorem prepare_actions_deterministic_witness :
    unitSeg = unitSeg ∧ defaultSettings = defaultSettings ∧
      defaultCalibration = defaultCalibration ∧
      prepareActions unitSeg defaultSettings defaultCalibration
        = prepareActions unitSeg defaultSettings defaultCalibration :=
  ⟨rfl, rfl, rfl,
   prepare_actions_deterministic unitSeg unitSeg defaultSettings defaultSettings
     defaultCalibration defaultCalibration rfl rfl rfl⟩

/-- C6 counterexample: with effective gain `2` (and a unit calibration),
`angles_to_counts(counts_to_angles(1, 0, apply_gain=True), include_gain=True)`
returns `(4, 0)`, not `(1, 0)`: the gain is applied multiplicatively in
both directions, so the with-gain composition is not the identity. -/
theorem gain_roundtrip_cex :
    CameraModel.angles_to_counts unitCalibration gainSettings
        (CameraModel.counts_to_angles unitCalibration gainSettings 1 0 true).1
        (CameraModel.counts_to_angles unitCalibration gainSettings 1 0 true).2 true
      = (4, 0) ∧
    ((4 : ℚ), (0 : ℚ)) ≠ (1, 0) := by
  constructor
  · norm_num [CameraModel.angles_to_counts, CameraModel.counts_to_angles,
      CameraModel.gainX, CameraModel.gainY, unitCalibration, gainSettings,
      defaultSettings]
  · intro h
    have := congrArg Prod.fst h
    norm_num at this

/-- C6 amended: the gain-free variants are mutually inverse
(`angles_to_counts(counts_to_angles(dx,dy,False),False) = (dx,dy)` for
any nonzero calibration constants), while the with-gain composition
scales each axis by the square of its effective gain — it is the
identity only when the effective gains are `1`. -/
theorem counts_angles_roundtrip (calibration : CameraCalibrationProfile)
    (settings : MacroSettings) (dx dy : ℚ)
    (hx : calibration.counts_per_degree_x ≠ 0)
    (hy : calibration.counts_per_degree_y ≠ 0) :
    CameraModel.angles_to_counts calibration settings
        (CameraModel.counts_to_angles calibration settings dx dy false).1
        (CameraModel.counts_to_angles calibration settings dx dy false).2 false
      = (dx, dy) ∧
    CameraModel.angles_to_counts calibration settings
        (CameraModel.counts_to_angles calibration settings dx dy true).1
        (CameraModel.counts_to_angles calibration settings dx dy true).2 true
      = (CameraModel.gainX settings ^ 2 * dx, CameraModel.gainY settings ^ 2 * dy) := by
  simp only [CameraModel.angles_to_counts, CameraModel.counts_to_angles]
  cases hix : settings.invert_x <;> cases hiy : settings.invert_y <;>
    constructor <;>
    · apply Prod.ext <;>
      · simp only [Bool.false_eq_true, if_true, if_false]
        field_simp
        try ring

/-- Witness for C6 (amended) at the default calibration and settings,
input `(3, 4)`. -/
theorem counts_angles_roundtrip_witness :
    defaultCalibration.counts_per_degree_x ≠ 0 ∧
      defaultCalibration.counts_per_degree_y ≠ 0 ∧
      (CameraModel.angles_to_counts defaultCalibration defaultSettings
          (CameraModel.counts_to_angles defaultCalibration defaultSettings 3 4 false).1
          (CameraModel.counts_to_angles defaultCalibration defaultSettings 3 4 false).2 false
        = (3, 4) ∧
      CameraModel.angles_to_counts defaultCalibration defaultSettings
          (CameraModel.counts_to_angles defaultCalibration defaultSettings 3 4 true).1
          (CameraModel.counts_to_angles defaultCalibration defaultSettings 3 4 true).2 true
        = (CameraModel.gainX defaultSettings ^ 2 * 3,
           CameraModel.gainY defaultSettings ^ 2 * 4)) := by
  have hx : defaultCalibration.counts_per_degree_x ≠ 0 := by
    norm_num [defaultCalibration]
  have hy : defaultCalibration.counts_per_degree_y ≠ 0 := by
    norm_num [defaultCalibration]
  exact ⟨hx, hy, counts_angles_roundtrip defaultCalibration defaultSettings 3 4 hx hy⟩

/-- C3 (code evaluated at the failing input): with `strict_mode = true`
and otherwise-default settings, `MotionFilter.apply` still applies the
deadzone — the non-zero input `(0.01, 0)` at `t = 0` is filtered to
`(0, 0)` instead of passing through unchanged. `MotionFilter` never
reads `strict_mode`. -/
theorem strict_mode_not_identity :
    strictSettings.strict_mode = true ∧
    ((1 : ℚ)/100, (0 : ℚ)) ≠ (0, 0) ∧
    ((MotionFilter.init strictSettings defaultCalibration).apply (1/100) 0 0).2
      = (0, 0) ∧
    ((MotionFilter.init strictSettings defaultCalibration).apply (1/100) 0 0).2
      ≠ (1/100, 0) := by
  have hdz : (MotionFilter.init strictSettings defaultCalibration).deadzone_deg
      = 7/250 := by
    norm_num [MotionFilter.init, strictSettings, defaultSettings, defaultCalibration]
  have happ : ((MotionFilter.init strictSettings defaultCalibration).apply (1/100) 0 0).2
      = (0, 0) := by
    rw [MotionFilter.apply, if_pos]
    rw [hdz, hypotLt]
    norm_num
  refine ⟨rfl, ?_, happ, ?_⟩
  · intro h
    have := congrArg Prod.fst h
    norm_num at this
  · rw [happ]
    intro h
    have := congrArg Prod.fst h
    norm_num at this

/-- C5 counterexample: starting from a fresh session, right-press at
`t = 0`, capture one raw delta, then a second right-press at `t = 1`
while the segment is still open. The open segment's state is NOT left
unchanged: the press index, press timestamp and accumulated samples are
all replaced by a fresh state anchored at the second press. -/
theorem second_press_not_noop_cex :
    (((RecordingSessionState.init.onMouseClick "right" true 0).appendCameraDelta
          defaultCalibration defaultSettings 5 0 (1/2)).onMouseClick "right" true 1).segment_state
      ≠ ((RecordingSessionState.init.onMouseClick "right" true 0).appendCameraDelta
          defaultCalibration defaultSettings 5 0 (1/2)).segment_state ∧
    ((RecordingSessionState.init.onMouseClick "right" true 0).appendCameraDelta
          defaultCalibration defaultSettings 5 0 (1/2)).segment_state
      = some ⟨0, 0, [{ timestamp := 1/2, angle_dx := 2/5, angle_dy := 0,
                       raw_dx := 5, raw_dy := 0 }]⟩ ∧
    (((RecordingSessionState.init.onMouseClick "right" true 0).appendCameraDelta
          defaultCalibration defaultSettings 5 0 (1/2)).onMouseClick "right" true 1).segment_state
      = some ⟨1, 1, []⟩ := by
  have h1 : ((RecordingSessionState.init.onMouseClick "right" true 0).appendCameraDelta
      defaultCalibration defaultSettings 5 0 (1/2)).segment_state
      = some ⟨0, 0, [{ timestamp := 1/2, angle_dx := 2/5, angle_dy := 0,
                       raw_dx := 5, raw_dy := 0 }]⟩ := by
    norm_num [RecordingSessionState.init, RecordingSessionState.onMouseClick,
      RecordingSessionState.appendEvent, RecordingSessionState.startCameraSegment,
      RecordingSessionState.appendCameraDelta, CameraModel.counts_to_angles,
      defaultCalibration, defaultSettings]
  have h2 : (((RecordingSessionState.init.onMouseClick "right" true 0).appendCameraDelta
      defaultCalibration defaultSettings 5 0 (1/2)).onMouseClick "right" true 1).segment_state
      = some ⟨1, 1, []⟩ := by
    norm_num [RecordingSessionState.init, RecordingSessionState.onMouseClick,
      RecordingSessionState.appendEvent, RecordingSessionState.startCameraSegment,
      RecordingSessionState.appendCameraDelta, CameraModel.counts_to_angles,
      defaultCalibration, defaultSettings]
  refine ⟨?_, h1, h2⟩
  rw [h1, h2]
  intro h
  injection h with h
  have := congrArg CameraSegmentState.press_event_index h
  simp at this

/-- C5 amended: a second right-button-down while a segment is open does
not nest segments or emit one, but it is not a no-op either — it
unconditionally replaces the open segment state with a fresh empty state
anchored at the new press event (index = position of the newly appended
event, timestamp = that event's timestamp, no samples), and leaves the
closed-segments list unchanged; at most one segment is open at any time
(`segment_state` is a single optional value). -/
theorem second_press_replaces_state (st : RecordingSessionState) (timestamp : ℚ) :
    (st.onMouseClick "right" true timestamp).segment_state
      = some ⟨st.events.length, timestamp, []⟩ ∧
    (st.onMouseClick "right" true timestamp).segments = st.segments := by
  constructor <;>
    simp [RecordingSessionState.onMouseClick, RecordingSessionState.appendEvent,
      RecordingSessionState.startCameraSegment, List.get?_concat_length]

/-- C4 counterexample: `MacroRecording.from_dict` (all the parsing
`MacroStorage.load` performs) on a payload whose only segment points at
non-existent events returns that malformed recording — no error is
raised, no `CorruptRecording` type exists in the code, and the loaded
recording's segment does not resolve. -/
theorem load_no_validation_cex :
    MacroRecording.fromDict badPayload = badRec ∧
    badRec.camera_segments ≠ [] ∧
    badRec.camera_segments.all (fun seg => segmentResolves badRec.events seg) = false := by
  refine ⟨rfl, ?_, rfl⟩
  simp [badRec]

/-- Helper: a successful `segments_by_press` lookup returns a segment
whose press index is the looked-up key. -/
theorem segmentsByPress_eq (segments : List CameraSegment) (idx : ℤ)
    (seg : CameraSegment) (h : segmentsByPress segments idx = some seg) :
    seg.press_event_index = idx := by
  rw [segmentsByPress] at h
  revert h
  suffices haux : ∀ (l : List CameraSegment) (acc : Option CameraSegment),
      (∀ s, acc = some s → s.press_event_index = idx) →
      l.foldl (fun acc sg => if sg.press_event_index = idx then some sg else acc) acc
        = some seg → seg.press_event_index = idx from
    haux segments none (by intro s hs; cases hs)
  intro l
  induction l with
  | nil =>
    intro acc hacc hf
    exact hacc seg hf
  | cons hd tl ih =>
    intro acc hacc hf
    rw [List.foldl_cons] at hf
    refine ih _ ?_ hf
    intro s hs
    by_cases hh : hd.press_event_index = idx
    · rw [if_pos hh] at hs
      injection hs with hs
      rw [← hs]
      exact hh
    · rw [if_neg hh] at hs
      exact hacc s hs

/-- C4 amended: loading performs no validation — `from_dict` is total and
preserves the segment indices as given (missing ones default to `-1`) —
and during playback a camera segment is only ever activated through a
resolving press index: whenever the dispatch loop creates a runner for a
segment, that segment's `press_event_index` designates an existing
right-button `mouse_press` event. A segment whose indices do not resolve
is therefore silently skipped rather than rejected at load time. -/
theorem unresolved_segment_never_activated (rec : MacroRecording) (idx : ℕ) :
    ((runnerSegmentAt rec idx).all (fun seg => pressResolves rec.events seg)) = true := by
  rw [runnerSegmentAt]
  cases hev : rec.events.get? idx with
  | none => rfl
  | some ev =>
    dsimp only
    by_cases hcond : ev.type = "mouse_press" ∧ resolveMouseButton ev.button = some "right"
    · rw [if_pos hcond]
      cases hlook : segmentsByPress rec.camera_segments idx with
      | none => rfl
      | some seg =>
        have hidx : seg.press_event_index = (idx : ℤ) :=
          segmentsByPress_eq rec.camera_segments idx seg hlook
        simp only [Option.all_some]
        rw [pressResolves, hidx]
        have htn : ((idx : ℤ)).toNat = idx := Int.toNat_natCast idx
        rw [htn, hev]
        simp [hcond.1, hcond.2]
    · rw [if_neg hcond]
      rfl

/-- Helper: `feed`'s loop conserves displacement exactly — the final
buffers equal the initial buffers minus everything emitted. -/
theorem feedLoop_conserve (max_step : ℤ) (hm : 1 ≤ max_step) (bx bY : ℚ) :
    (feedLoop max_step hm bx bY).2.1
        = bx - (stepSumX (feedLoop max_step hm bx bY).1 : ℤ) ∧
    (feedLoop max_step hm bx bY).2.2
        = bY - (stepSumY (feedLoop max_step hm bx bY).1 : ℤ) := by
  induction bx, bY using feedLoop.induct max_step hm with
  | case1 bx bY sx sy h =>
    rw [feedLoop, dif_pos h]
    simp [stepSumX, stepSumY]
  | case2 bx bY sx sy h ih =>
    rw [feedLoop, dif_neg h]
    dsimp only
    unfold_let sx sy at ih
    obtain ⟨ih1, ih2⟩ := ih
    constructor
    · rw [ih1]
      simp only [stepSumX, List.map_cons, List.sum_cons]
      push_cast
      ring
    · rw [ih2]
      simp only [stepSumY, List.map_cons, List.sum_cons]
      push_cast
      ring

/-- Helper: every step the loop emits is bounded by `max_step`, the final
buffers are sub-unit, and the number of iterations is bounded by the
number of whole units initially buffered (each iteration removes at
least one). -/
theorem feedLoop_bounds (max_step : ℤ) (hm : 1 ≤ max_step) (bx bY : ℚ) :
    (∀ s ∈ (feedLoop max_step hm bx bY).1, |s.1| ≤ max_step ∧ |s.2| ≤ max_step) ∧
    |(feedLoop max_step hm bx bY).2.1| < 1 ∧
    |(feedLoop max_step hm bx bY).2.2| < 1 ∧
    (feedLoop max_step hm bx bY).1.length ≤ (⌊|bx|⌋ + ⌊|bY|⌋).toNat := by
  induction bx, bY using feedLoop.induct max_step hm with
  | case1 bx bY sx sy h =>
    rw [feedLoop, dif_pos h]
    obtain ⟨hx0, _, _, _⟩ := sendFor_spec max_step hm bx
    obtain ⟨hy0, _, _, _⟩ := sendFor_spec max_step hm bY
    refine ⟨by simp, hx0.mp h.1, hy0.mp h.2, by simp⟩
  | case2 bx bY sx sy h ih =>
    rw [feedLoop, dif_neg h]
    dsimp only
    unfold_let sx sy at ih h
    obtain ⟨ihmem, ihx, ihy, ihlen⟩ := ih
    obtain ⟨hx0, hxm, hxf, hx1⟩ := sendFor_spec max_step hm bx
    obtain ⟨hy0, hym, hyf, hy1⟩ := sendFor_spec max_step hm bY
    refine ⟨?_, ihx, ihy, ?_⟩
    · intro s hs
      rcases List.mem_cons.mp hs with hs | hs
      · rw [hs]
        exact ⟨hxm, hym⟩
      · exact ihmem s hs
    · rw [List.length_cons]
      have hxn : (0 : ℤ) ≤ ⌊|bx - sendFor max_step bx|⌋ :=
        Int.floor_nonneg.mpr (abs_nonneg _)
      have hyn : (0 : ℤ) ≤ ⌊|bY - sendFor max_step bY|⌋ :=
        Int.floor_nonneg.mpr (abs_nonneg _)
      have habs_x : (0 : ℤ) ≤ |sendFor max_step bx| := abs_nonneg _
      have habs_y : (0 : ℤ) ≤ |sendFor max_step bY| := abs_nonneg _
      rcases not_and_or.mp h with hx | hy
      · have := hx1 hx
        omega
      · have := hy1 hy
        omega

/-- C9: `SubPixelAccumulator.feed` terminates on every finite input —
its loop runs at most one iteration per whole buffered unit (the length
bound below) — every emitted step is bounded by `max_step` on each axis,
and on return both remainder buffers have magnitude strictly below one.
(`max_step ≥ 1` holds for every constructed accumulator, by `__init__`'s
clamp.) -/
theorem feed_bounded_steps (a : SubPixelAccumulator) (counts_x counts_y : ℚ) :
    (∀ s ∈ (a.feed counts_x counts_y).1,
        |s.1| ≤ a.max_step ∧ |s.2| ≤ a.max_step) ∧
    |(a.feed counts_x counts_y).2.buffer_x| < 1 ∧
    |(a.feed counts_x counts_y).2.buffer_y| < 1 ∧
    (a.feed counts_x counts_y).1.length
      ≤ (⌊|a.buffer_x + counts_x|⌋ + ⌊|a.buffer_y + counts_y|⌋).toNat := by
  have h := feedLoop_bounds a.max_step a.hmax
    (a.buffer_x + counts_x) (a.buffer_y + counts_y)
  exact h

/-- Helper: Python's banker-rounding is within half a unit of its
argument. -/
theorem pyRound_close (q : ℚ) : |(pyRound q : ℚ) - q| ≤ 1/2 := by
  have h0 : ((⌊q⌋ : ℤ) : ℚ) ≤ q := Int.floor_le q
  have h1 : q < ⌊q⌋ + 1 := Int.lt_floor_add_one q
  rw [pyRound]
  split_ifs with hA hB hC
  · push_cast
    rw [abs_of_nonneg (by linarith)]
    linarith
  · push_cast
    rw [abs_of_nonpos (by linarith)]
    linarith
  · push_cast
    rw [abs_of_nonpos (by linarith)]
    linarith
  · push_cast
    rw [abs_of_nonneg (by linarith)]
    push_neg at hA hB
    linarith

/-- Helper: the flushed total on each axis is within half a unit of the
buffered remainder (also when `flush` emits nothing). -/
theorem flush_close (a : SubPixelAccumulator) :
    |(stepSumX a.flush.1 : ℚ) - a.buffer_x| ≤ 1/2 ∧
    |(stepSumY a.flush.1 : ℚ) - a.buffer_y| ≤ 1/2 := by
  rw [SubPixelAccumulator.flush]
  by_cases h1 : a.buffer_x ≠ 0 ∨ a.buffer_y ≠ 0
  · rw [if_pos h1]
    dsimp only
    by_cases h2 : pyRound a.buffer_x ≠ 0 ∨ pyRound a.buffer_y ≠ 0
    · rw [if_pos h2]
      constructor
      · simpa [stepSumX] using pyRound_close a.buffer_x
      · simpa [stepSumY] using pyRound_close a.buffer_y
    · rw [if_neg h2]
      push_neg at h2
      constructor
      · have := pyRound_close a.buffer_x
        rw [h2.1] at this
        simpa [stepSumX] using this
      · have := pyRound_close a.buffer_y
        rw [h2.2] at this
        simpa [stepSumY] using this
  · rw [if_neg h1]
    push_neg at h1
    constructor
    · simp [stepSumX, h1.1]
    · simp [stepSumY, h1.2]

/-- Helper: one `feed` call conserves displacement exactly. -/
theorem feed_conserve (a : SubPixelAccumulator) (cx cy : ℚ) :
    (a.feed cx cy).2.buffer_x
        = a.buffer_x + cx - (stepSumX (a.feed cx cy).1 : ℤ) ∧
    (a.feed cx cy).2.buffer_y
        = a.buffer_y + cy - (stepSumY (a.feed cx cy).1 : ℤ) :=
  feedLoop_conserve a.max_step a.hmax (a.buffer_x + cx) (a.buffer_y + cy)

/-- Helper: a whole sequence of `feed` calls conserves displacement
exactly: final buffers = initial buffers + everything fed − everything
emitted. -/
theorem runFeeds_conserve (inputs : List (ℚ × ℚ)) :
    ∀ a : SubPixelAccumulator,
      (runFeeds a inputs).2.buffer_x
          = a.buffer_x + (inputs.map Prod.fst).sum
            - (stepSumX (runFeeds a inputs).1 : ℤ) ∧
      (runFeeds a inputs).2.buffer_y
          = a.buffer_y + (inputs.map Prod.snd).sum
            - (stepSumY (runFeeds a inputs).1 : ℤ) := by
  induction inputs with
  | nil =>
    intro a
    simp [runFeeds, stepSumX, stepSumY]
  | cons c rest ih =>
    intro a
    rw [runFeeds]
    dsimp only
    obtain ⟨ih1, ih2⟩ := ih (a.feed c.1 c.2).2
    obtain ⟨hf1, hf2⟩ := feed_conserve a c.1 c.2
    constructor
    · rw [ih1, hf1]
      simp only [stepSumX, List.map_cons, List.sum_cons, List.map_append,
        List.sum_append]
      push_cast
      ring
    · rw [ih2, hf2]
      simp only [stepSumY, List.map_cons, List.sum_cons, List.map_append,
        List.sum_append]
      push_cast
      ring

/-- C2: for every sequence of `feed` calls (from a fresh accumulator)
followed by one `flush`, the per-axis total of everything emitted plus
the flushed step is within one unit of `round(total fed)`, independently
of how the total was split across calls; and concretely, a single
`feed(3.6, 0.0)` with `max_step = 2` emits steps summing to `3` on x,
after which `flush()` emits the single step `(1, 0)`. -/
theorem subpixel_total_within_round (max_step : ℤ) (inputs : List (ℚ × ℚ)) :
    (|stepSumX (runFeeds (SubPixelAccumulator.init max_step) inputs).1
        + stepSumX (runFeeds (SubPixelAccumulator.init max_step) inputs).2.flush.1
        - pyRound ((inputs.map Prod.fst).sum)| ≤ 1 ∧
     |stepSumY (runFeeds (SubPixelAccumulator.init max_step) inputs).1
        + stepSumY (runFeeds (SubPixelAccumulator.init max_step) inputs).2.flush.1
        - pyRound ((inputs.map Prod.snd).sum)| ≤ 1) ∧
    stepSumX ((SubPixelAccumulator.init 2).feed (18/5) 0).1 = 3 ∧
    ((SubPixelAccumulator.init 2).feed (18/5) 0).2.flush.1 = [(1, 0)] := by
  constructor
  · obtain ⟨hc1, hc2⟩ := runFeeds_conserve inputs (SubPixelAccumulator.init max_step)
    obtain ⟨hf1, hf2⟩ := flush_close (runFeeds (SubPixelAccumulator.init max_step) inputs).2
    rw [show (SubPixelAccumulator.init max_step).buffer_x = 0 from rfl] at hc1
    rw [show (SubPixelAccumulator.init max_step).buffer_y = 0 from rfl] at hc2
    constructor
    · have hr := pyRound_close ((inputs.map Prod.fst).sum)
      have key : |((stepSumX (runFeeds (SubPixelAccumulator.init max_step) inputs).1
          + stepSumX (runFeeds (SubPixelAccumulator.init max_step) inputs).2.flush.1
          - pyRound ((inputs.map Prod.fst).sum) : ℤ) : ℚ)| ≤ 1 := by
        push_cast
        have hsplit : ((stepSumX (runFeeds (SubPixelAccumulator.init max_step) inputs).1 : ℤ) : ℚ)
            + (stepSumX (runFeeds (SubPixelAccumulator.init max_step) inputs).2.flush.1 : ℤ)
            - (pyRound ((inputs.map Prod.fst).sum) : ℤ)
            = ((stepSumX (runFeeds (SubPixelAccumulator.init max_step) inputs).2.flush.1 : ℤ)
                - (runFeeds (SubPixelAccumulator.init max_step) inputs).2.buffer_x)
              + ((inputs.map Prod.fst).sum
                - (pyRound ((inputs.map Prod.fst).sum) : ℤ)) := by
          rw [hc1]
          ring
        rw [hsplit]
        have htri := abs_add
          ((stepSumX (runFeeds (SubPixelAccumulator.init max_step) inputs).2.flush.1 : ℤ)
            - (runFeeds (SubPixelAccumulator.init max_step) inputs).2.buffer_x : ℚ)
          ((inputs.map Prod.fst).sum - (pyRound ((inputs.map Prod.fst).sum) : ℤ) : ℚ)
        have hr2 : |(inputs.map Prod.fst).sum - ((pyRound ((inputs.map Prod.fst).sum) : ℤ) : ℚ)| ≤ 1/2 := by
          rw [abs_sub_comm]
          exact hr
        linarith
      exact_mod_cast key
    · have hr := pyRound_close ((inputs.map Prod.snd).sum)
      have key : |((stepSumY (runFeeds (SubPixelAccumulator.init max_step) inputs).1
          + stepSumY (runFeeds (SubPixelAccumulator.init max_step) inputs).2.flush.1
          - pyRound ((inputs.map Prod.snd).sum) : ℤ) : ℚ)| ≤ 1 := by
        push_cast
        have hsplit : ((stepSumY (runFeeds (SubPixelAccumulator.init max_step) inputs).1 : ℤ) : ℚ)
            + (stepSumY (runFeeds (SubPixelAccumulator.init max_step) inputs).2.flush.1 : ℤ)
            - (pyRound ((inputs.map Prod.snd).sum) : ℤ)
            = ((stepSumY (runFeeds (SubPixelAccumulator.init max_step) inputs).2.flush.1 : ℤ)
                - (runFeeds (SubPixelAccumulator.init max_step) inputs).2.buffer_y)
              + ((inputs.map Prod.snd).sum
                - (pyRound ((inputs.map Prod.snd).sum) : ℤ)) := by
          rw [hc2]
          ring
        rw [hsplit]
        have htri := abs_add
          ((stepSumY (runFeeds (SubPixelAccumulator.init max_step) inputs).2.flush.1 : ℤ)
            - (runFeeds (SubPixelAccumulator.init max_step) inputs).2.buffer_y : ℚ)
          ((inputs.map Prod.snd).sum - (pyRound ((inputs.map Prod.snd).sum) : ℤ) : ℚ)
        have hr2 : |(inputs.map Prod.snd).sum - ((pyRound ((inputs.map Prod.snd).sum) : ℤ) : ℚ)| ≤ 1/2 := by
          rw [abs_sub_comm]
          exact hr
        linarith
      exact_mod_cast key
  · have habs1 : |(18 : ℚ)/5| = 18/5 := by
      rw [abs_of_pos]
      norm_num
    have habs2 : |(8 : ℚ)/5| = 8/5 := by
      rw [abs_of_pos]
      norm_num
    have habs3 : |(3 : ℚ)/5| = 3/5 := by
      rw [abs_of_pos]
      norm_num
    have hfl1 : ⌊(18 : ℚ)/5⌋ = 3 := by norm_num
    have hfl2 : ⌊(8 : ℚ)/5⌋ = 1 := by norm_num
    have hsf1 : sendFor 2 ((18 : ℚ)/5) = 2 := by
      rw [sendFor, if_pos (by rw [habs1]; norm_num)]
      rw [habs1, hfl1]
      norm_num
    have hsf2 : sendFor 2 ((8 : ℚ)/5) = 1 := by
      rw [sendFor, if_pos (by rw [habs2]; norm_num)]
      rw [habs2, hfl2]
      norm_num
    have hsf3 : sendFor 2 ((3 : ℚ)/5) = 0 := by
      rw [sendFor, if_neg]
      rw [habs3]
      norm_num
    have hsf0 : sendFor 2 (0 : ℚ) = 0 := by
      rw [sendFor, if_neg]
      norm_num
    have htwo : (1 : ℤ) ≤ 2 := by norm_num
    have e3 : feedLoop 2 htwo (3/5) 0 = ([], 3/5, 0) := by
      rw [feedLoop]
      rw [dif_pos ⟨hsf3, hsf0⟩]
    have e2 : feedLoop 2 htwo (8/5) 0 = ([(1, 0)], 3/5, 0) := by
      rw [feedLoop]
      rw [dif_neg (by rw [hsf2]; simp)]
      rw [hsf2, hsf0]
      norm_num
      rw [e3]
      exact ⟨rfl, rfl⟩
    have e1 : feedLoop 2 htwo (18/5) 0 = ([(2, 0), (1, 0)], 3/5, 0) := by
      rw [feedLoop]
      rw [dif_neg (by rw [hsf1]; simp)]
      rw [hsf1, hsf0]
      norm_num
      rw [e2]
      exact ⟨rfl, rfl⟩
    have hfeed : ((SubPixelAccumulator.init 2).feed (18/5) 0)
        = ([(2, 0), (1, 0)], ⟨2, htwo, 3/5, 0⟩) := by
      rw [SubPixelAccumulator.feed]
      have hms : (SubPixelAccumulator.init 2).max_step = 2 := rfl
      have hbx : (SubPixelAccumulator.init 2).buffer_x = 0 := rfl
      have hby : (SubPixelAccumulator.init 2).buffer_y = 0 := rfl
      simp only [hms, hbx, hby, zero_add, add_zero]
      rw [e1]
    rw [hfeed]
    constructor
    · rw [stepSumX]
      norm_num
    · rw [SubPixelAccumulator.flush]
      rw [if_pos (by norm_num)]
      dsimp only
      have hpr1 : pyRound (3/5) = 1 := by
        rw [pyRound]
        norm_num
      have hpr0 : pyRound 0 = 0 := by
        rw [pyRound]
        norm_num
      rw [hpr1, hpr0]
      norm_num

/-- Helper: the accumulation loop adds every sample's angle deltas to the
running totals, whatever the accumulator lists hold. -/
theorem buildLoop_total (start endT : ℚ) :
    ∀ (samples : List CameraSample) (times cx cy : List ℚ) (tx ty : ℚ),
      (buildLoop start endT samples (times, cx, cy, tx, ty)).2.2.2.1
          = tx + (samples.map (fun s => s.angle_dx)).sum ∧
      (buildLoop start endT samples (times, cx, cy, tx, ty)).2.2.2.2
          = ty + (samples.map (fun s => s.angle_dy)).sum := by
  intro samples
  induction samples with
  | nil =>
    intro times cx cy tx ty
    simp [buildLoop]
  | cons sample rest ih =>
    intro times cx cy tx ty
    rw [buildLoop]
    obtain ⟨ih1, ih2⟩ := ih (times ++ [clampQ sample.timestamp start endT])
      (cx ++ [tx + sample.angle_dx]) (cy ++ [ty + sample.angle_dy])
      (tx + sample.angle_dx) (ty + sample.angle_dy)
    constructor
    · rw [ih1, List.map_cons, List.sum_cons]
      ring
    · rw [ih2, List.map_cons, List.sum_cons]
      ring

/-- Helper: the accumulation loop keeps the invariant "the last
cumulative entry equals the running total" on both axes. -/
theorem buildLoop_lastCum (start endT : ℚ) :
    ∀ (samples : List CameraSample) (times cx cy : List ℚ) (tx ty : ℚ),
      cx.getLastD 0 = tx → cy.getLastD 0 = ty →
      (buildLoop start endT samples (times, cx, cy, tx, ty)).2.1.getLastD 0
          = (buildLoop start endT samples (times, cx, cy, tx, ty)).2.2.2.1 ∧
      (buildLoop start endT samples (times, cx, cy, tx, ty)).2.2.1.getLastD 0
          = (buildLoop start endT samples (times, cx, cy, tx, ty)).2.2.2.2 := by
  intro samples
  induction samples with
  | nil =>
    intro times cx cy tx ty hx hy
    rw [buildLoop]
    exact ⟨hx, hy⟩
  | cons sample rest ih =>
    intro times cx cy tx ty hx hy
    rw [buildLoop]
    exact ih (times ++ [clampQ sample.timestamp start endT])
      (cx ++ [tx + sample.angle_dx]) (cy ++ [ty + sample.angle_dy])
      (tx + sample.angle_dx) (ty + sample.angle_dy)
      (List.getLastD_concat _ _ _) (List.getLastD_concat _ _ _)

/-- Helper: the accumulation loop keeps the invariant "the time list is
nonempty, starts at `start`, and (when `start ≤ endT`) ends at or before
`endT`" — every appended timestamp is clamped into `[start, endT]`. -/
theorem buildLoop_times (start endT : ℚ) (hse : start ≤ endT) :
    ∀ (samples : List CameraSample) (times cx cy : List ℚ) (tx ty : ℚ),
      times ≠ [] → times.head? = some start → times.getLastD 0 ≤ endT →
      (buildLoop start endT samples (times, cx, cy, tx, ty)).1 ≠ [] ∧
      (buildLoop start endT samples (times, cx, cy, tx, ty)).1.head? = some start ∧
      (buildLoop start endT samples (times, cx, cy, tx, ty)).1.getLastD 0 ≤ endT := by
  intro samples
  induction samples with
  | nil =>
    intro times cx cy tx ty hne hhead hlast
    rw [buildLoop]
    exact ⟨hne, hhead, hlast⟩
  | cons sample rest ih =>
    intro times cx cy tx ty hne hhead hlast
    rw [buildLoop]
    refine ih (times ++ [clampQ sample.timestamp start endT])
      (cx ++ [tx + sample.angle_dx]) (cy ++ [ty + sample.angle_dy])
      (tx + sample.angle_dx) (ty + sample.angle_dy)
      (by simp) ?_ ?_
    · rw [List.head?_append_of_ne_nil _ hne]
      exact hhead
    · rw [List.getLastD_concat]
      rw [clampQ]
      rcases max_cases start (min endT sample.timestamp) with ⟨hm, _⟩ | ⟨hm, _⟩
      · rw [hm]
        exact hse
      · rw [hm]
        exact le_trans (min_le_left _ _) le_rfl

/-- Helper: `total_vector` of a built series is the sum of all supplied
samples' angle deltas — the sort is a permutation, every sample's delta
is accumulated whatever its timestamp, and the optional extension to
`end` repeats the final totals. -/
theorem build_total_vector (start endT : ℚ) (samples : List CameraSample) :
    (CumulativeSeries.build start endT samples).total_vector
      = ((samples.map (fun s => s.angle_dx)).sum,
         (samples.map (fun s => s.angle_dy)).sum) := by
  rw [CumulativeSeries.build]
  have hperm : (samples.mergeSort (fun a b => decide (a.timestamp ≤ b.timestamp))).Perm
      samples := List.mergeSort_perm samples _
  have hsx : ((samples.mergeSort (fun a b => decide (a.timestamp ≤ b.timestamp))).map
      (fun s => s.angle_dx)).sum = (samples.map (fun s => s.angle_dx)).sum :=
    (hperm.map _).sum_eq
  have hsy : ((samples.mergeSort (fun a b => decide (a.timestamp ≤ b.timestamp))).map
      (fun s => s.angle_dy)).sum = (samples.map (fun s => s.angle_dy)).sum :=
    (hperm.map _).sum_eq
  obtain ⟨ht1, ht2⟩ := buildLoop_total start endT
    (samples.mergeSort (fun a b => decide (a.timestamp ≤ b.timestamp)))
    [start] [0] [0] 0 0
  obtain ⟨hl1, hl2⟩ := buildLoop_lastCum start endT
    (samples.mergeSort (fun a b => decide (a.timestamp ≤ b.timestamp)))
    [start] [0] [0] 0 0 rfl rfl
  split_ifs with hlt
  · rw [CumulativeSeries.total_vector]
    dsimp only
    rw [List.getLastD_concat, List.getLastD_concat, ht1, ht2, hsx, hsy]
    norm_num
  · rw [CumulativeSeries.total_vector]
    dsimp only
    rw [hl1, hl2, ht1, ht2, hsx, hsy]
    norm_num

/-- C10: `CumulativeSeries` never drops a sample — for every interval and
every sample list (any order, timestamps inside the interval or not),
the built series' `total_vector` is exactly the sum of all supplied
samples' `(angle_dx, angle_dy)`. -/
theorem cumulative_series_total (start endT : ℚ) (samples : List CameraSample) :
    (CumulativeSeries.build start endT samples).total_vector
      = ((samples.map (fun s => s.angle_dx)).sum,
         (samples.map (fun s => s.angle_dy)).sum) :=
  build_total_vector start endT samples

/-- Helper: a built series' time list starts at `start` and, when
`start ≤ endT`, ends exactly at `endT`. -/
theorem build_times (start endT : ℚ) (hse : start ≤ endT)
    (samples : List CameraSample) :
    (CumulativeSeries.build start endT samples).times.head? = some start ∧
    (CumulativeSeries.build start endT samples).times.getLastD 0 = endT := by
  rw [CumulativeSeries.build]
  obtain ⟨hne, hhead, hlast⟩ := buildLoop_times start endT hse
    (samples.mergeSort (fun a b => decide (a.timestamp ≤ b.timestamp)))
    [start] [0] [0] 0 0 (by simp) rfl (by simpa using hse)
  split_ifs with hlt
  · constructor
    · rw [List.head?_append_of_ne_nil _ hne]
      exact hhead
    · exact List.getLastD_concat _ _ _
  · exact ⟨hhead, le_antisymm hlast (not_lt.mp hlt)⟩

/-- Helper: evaluating a built series at `endT` (for `start < endT`)
returns the final cumulative totals. -/
theorem build_value_at_end (start endT : ℚ) (h : start < endT)
    (samples : List CameraSample) :
    (CumulativeSeries.build start endT samples).value_at endT
      = (CumulativeSeries.build start endT samples).total_vector := by
  obtain ⟨hhead, hlast⟩ := build_times start endT (le_of_lt h) samples
  rw [CumulativeSeries.value_at]
  have hheadD : (CumulativeSeries.build start endT samples).times.headD 0 = start := by
    rw [List.headD_eq_head?_getD, hhead]
    rfl
  rw [if_neg (by rw [hheadD]; exact not_le.mpr h), if_pos (by rw [hlast])]
  rfl

/-- Helper: the resample loop telescopes — the emitted deltas sum to the
interpolated cumulative value at the final tick minus the starting
cumulative value. -/
theorem resampleLoop_sum (series : CumulativeSeries)
    (calibration : CameraCalibrationProfile) :
    ∀ (ts : List ℚ) (px py : ℚ), ts ≠ [] →
      ((resampleLoop series calibration px py ts).map (fun s => s.angle_dx)).sum
          = (series.value_at (ts.getLastD 0)).1 - px ∧
      ((resampleLoop series calibration px py ts).map (fun s => s.angle_dy)).sum
          = (series.value_at (ts.getLastD 0)).2 - py := by
  intro ts
  induction ts with
  | nil =>
    intro px py hne
    exact absurd rfl hne
  | cons t rest ih =>
    intro px py _
    cases rest with
    | nil =>
      rw [resampleLoop, resampleLoop]
      simp
    | cons r rs =>
      rw [resampleLoop]
      obtain ⟨ih1, ih2⟩ := ih (series.value_at t).1 (series.value_at t).2
        (List.cons_ne_nil r rs)
      constructor
      · rw [List.map_cons, List.sum_cons, ih1]
        rw [show (t :: r :: rs).getLastD 0 = (r :: rs).getLastD 0 from rfl]
        ring
      · rw [List.map_cons, List.sum_cons, ih2]
        rw [show (t :: r :: rs).getLastD 0 = (r :: rs).getLastD 0 from rfl]
        ring

/-- C1 counterexample: a segment with one sample of one degree but zero
duration (`press_timestamp = release_timestamp`) resamples to the empty
list at any rate, so the resampled deltas sum to `0` while the original
deltas sum to `1`. -/
theorem resample_zero_duration_cex :
    ((CameraTrajectory.resample degSeg defaultCalibration 480).map
        (fun s => s.angle_dx)).sum ≠ degSeg.sum_angles.1 := by
  have hres : CameraTrajectory.resample degSeg defaultCalibration 480 = [] := by
    rw [CameraTrajectory.resample]
    rw [if_pos]
    exact Or.inr (by norm_num [CameraTrajectory.duration, degSeg])
  rw [hres]
  norm_num [degSeg, CameraSegment.sum_angles]

/-- C1 amended: for every camera segment with at least one sample and
positive duration (`press_timestamp < release_timestamp`), and for every
target rate, the angle deltas of `CameraTrajectory.resample` sum exactly
(over `ℚ`, i.e. to within floating epsilon in the source) to the
segment's original cumulative angle total on both axes: resampling
re-partitions the interpolated cumulative series without creating or
destroying displacement. (For a zero-duration segment the source
returns the empty list instead — see the counterexample.) -/
theorem resample_preserves_sum (segment : CameraSegment)
    (calibration : CameraCalibrationProfile) (target_rate_hz : ℚ)
    (h1 : segment.samples ≠ [])
    (h2 : segment.press_timestamp < segment.release_timestamp) :
    (((CameraTrajectory.resample segment calibration target_rate_hz).map
        (fun s => s.angle_dx)).sum,
     ((CameraTrajectory.resample segment calibration target_rate_hz).map
        (fun s => s.angle_dy)).sum)
      = segment.sum_angles := by
  rw [CameraTrajectory.resample]
  rw [if_neg]
  · dsimp only
    obtain ⟨hs1, hs2⟩ := resampleLoop_sum
      (CumulativeSeries.build segment.press_timestamp segment.release_timestamp
        segment.samples) calibration
      (tickLoop segment.release_timestamp (1 / max 1 target_rate_hz)
          (segment.press_timestamp + 1 / max 1 target_rate_hz) ++
        [segment.release_timestamp])
      0 0 (by simp)
    rw [hs1, hs2, List.getLastD_concat, build_value_at_end _ _ h2,
      build_total_vector]
    rw [CameraSegment.sum_angles]
    norm_num
  · push_neg
    refine ⟨h1, ?_⟩
    rw [CameraTrajectory.duration, lt_max_iff]
    right
    linarith

/-- Witness for C1 (amended) at a concrete one-second segment with one
sample, rate `480`. -/
theorem resample_preserves_sum_witness :
    unitSeg.samples ≠ [] ∧
    unitSeg.press_timestamp < unitSeg.release_timestamp ∧
    (((CameraTrajectory.resample unitSeg defaultCalibration 480).map
        (fun s => s.angle_dx)).sum,
     ((CameraTrajectory.resample unitSeg defaultCalibration 480).map
        (fun s => s.angle_dy)).sum)
      = unitSeg.sum_angles := by
  have ha : unitSeg.samples ≠ [] := by simp [unitSeg]
  have hb : unitSeg.press_timestamp < unitSeg.release_timestamp := by
    norm_num [unitSeg]
  exact ⟨ha, hb, resample_preserves_sum unitSeg defaultCalibration 480 ha hb⟩

end MacroEngine
